import Mathlib

/-!
# SignOut — verification of the core ledger logic

Shallow embedding of the core logic of the SignOut kiosk app
(`src/streamlit_app.py` and `src/streamlit_app_SIGNOUT_PERFECT.py`):
the status engine (`get_currently_out`, `compute_van_status`), the
credential normalization (`normalize_pin`) and gate, the allocation
policy (`next_available_van`), the sequence-id generation and the
appending/rejection paths (`append_log_row`, the sign-out submit
handlers), the schema guard (`ensure_header`) and the administrative
delete (`delete_logs_by_ids`).

Strings are modelled through their character lists so that every
operation mirrors the corresponding Python `str` method (`strip`,
`replace`, `upper`, `lower`, `zfill`, `endswith`) on ASCII data.
Parsed timestamps are modelled as `Option Nat` (a comparable instant,
`none` for an unparsable cell, pandas `NaT`); parsed ids as
`Option Int` (`none` for a cell `pd.to_numeric(..., errors="coerce")`
turns into `NA`).
-/

/-- Python `str.strip()` (ASCII whitespace): drop leading and trailing
whitespace characters. -/
def pyStrip (s : String) : String :=
  String.mk (((s.data.dropWhile Char.isWhitespace).reverse.dropWhile
    Char.isWhitespace).reverse)

/-- Python `str.replace(" ", "")`: remove every space character. -/
def removeSpaces (s : String) : String :=
  String.mk (s.data.filter (fun c => c ≠ ' '))

/-- Python `str.upper()` on ASCII data. -/
def pyUpper (s : String) : String :=
  String.mk (s.data.map Char.toUpper)

/-- Python `str.lower()` on ASCII data. -/
def pyLower (s : String) : String :=
  String.mk (s.data.map Char.toLower)

/-- Python `s[:-2] if s.endswith(".0") else s`. -/
def stripDot0 (s : String) : String :=
  match s.data.reverse with
  | '0' :: '.' :: rest => String.mk rest.reverse
  | _ => s

/-- Python `str.zfill(4)`: left-pad with `'0'` to length 4; a leading
sign character stays in front of the inserted zeros; longer strings are
returned unchanged. -/
def zfill4 (s : String) : String :=
  if 4 ≤ s.data.length then s
  else
    match s.data with
    | c :: rest =>
      if c = '-' ∨ c = '+' then
        String.mk (c :: (List.replicate (4 - s.data.length) '0' ++ rest))
      else String.mk (List.replicate (4 - s.data.length) '0' ++ s.data)
    | [] => String.mk (List.replicate 4 '0')

/-- `normalize_pin` (both revisions):
`s = str(pin).strip().replace(" ", "")`, strip a trailing `".0"`,
then `s.zfill(4)`. -/
def normalize_pin (pin : String) : String :=
  zfill4 (stripDot0 (removeSpaces (pyStrip pin)))

example : normalize_pin "42" = "0042" := by decide
example : normalize_pin "1234.0" = "1234" := by decide
example : normalize_pin " 77 " = "0077" := by decide
example : normalize_pin "12345" = "12345" := by decide
example : normalize_pin "12a" = "012a" := by decide

/-- A row of the `logs` sheet after `load_logs_df` coercion: `id` through
`pd.to_numeric(..., errors="coerce")`, `timestamp` through
`pd.to_datetime(..., errors="coerce")` (`none` = `NaT`), the text
columns as strings. -/
structure LogRow where
  id : Option Int
  timestamp : Option Nat
  name : String
  reason : String
  other_reason : String
  action : String
  status : String
deriving DecidableEq, Repr

/-- A row of the `vans` sheet after `load_vans_df_cached` coercion. -/
structure VanRow where
  id : String
  timestamp : Option Nat
  van : String
  driver : String
  purpose : String
  other_purpose : String
  passengers : String
  action : String
  status : String
deriving DecidableEq, Repr

/-- Timestamp order used by `df.sort_values("timestamp")`: parsed instants
compare normally and `NaT` sorts after every parsed instant
(`na_position="last"`). -/
def tsLe (a b : Option Nat) : Bool :=
  match a, b with
  | some x, some y => x ≤ y
  | some _, none => true
  | none, some _ => false
  | none, none => true

/-- One step of the stable sort: place `r` after every element whose
timestamp is `tsLe` its own, before the first strictly later one. -/
def insertByTs {α : Type} (ts : α → Option Nat) (r : α) : List α → List α
  | [] => [r]
  | x :: xs =>
    if tsLe (ts x) (ts r) then x :: insertByTs ts r xs else r :: x :: xs

/-- `df.sort_values("timestamp")`: stable sort on the parsed timestamp,
unparsable (`NaT`) rows after all parsed rows in their original ledger
order (pandas keeps the `NaT` rows' original order for
`na_position="last"`). -/
def sortByTs {α : Type} (ts : α → Option Nat) (rows : List α) : List α :=
  rows.foldl (fun acc r => insertByTs ts r acc) []

/-- `df_sorted.groupby(key).tail(1)`: keep, for each key value, the last
row of the (sorted) frame carrying it, in frame order. -/
def lastPerKey {α : Type} (key : α → String) : List α → List α
  | [] => []
  | r :: rest =>
    if rest.any (fun x => key x == key r) then lastPerKey key rest
    else r :: lastPerKey key rest

/-- `get_currently_out` of `streamlit_app_SIGNOUT_PERFECT.py`: sort by
timestamp, keep each name's last row, keep the rows with
`status.astype(str).str.upper() == "OUT"`. -/
def get_currently_out_perfect (rows : List LogRow) : List LogRow :=
  (lastPerKey LogRow.name (sortByTs LogRow.timestamp rows)).filter
    (fun r => pyUpper r.status == "OUT")

/-- `get_currently_out` of `streamlit_app.py`: same shape, but the filter
is the case-sensitive `last_actions["status"] == "OUT"`. -/
def get_currently_out_app (rows : List LogRow) : List LogRow :=
  (lastPerKey LogRow.name (sortByTs LogRow.timestamp rows)).filter
    (fun r => r.status == "OUT")

/-- A person's derived status is OUT exactly when their name appears in
the currently-out frame (`name in df_out["name"].values`). -/
def derivedOutPerfect (rows : List LogRow) (n : String) : Bool :=
  (get_currently_out_perfect rows).any (fun r => r.name == n)

/-- Same derived status read off `streamlit_app.py`'s frame. -/
def derivedOutApp (rows : List LogRow) (n : String) : Bool :=
  (get_currently_out_app rows).any (fun r => r.name == n)

/-- The last event of a subject: last element of the sorted frame
restricted to the subject's rows. -/
def lastEvent (rows : List LogRow) (n : String) : Option LogRow :=
  ((sortByTs LogRow.timestamp rows).filter (fun r => r.name == n)).getLast?

/-- The fixed van pool, in declared order (`VANS`). -/
def VANS : List String := ["Van 1", "Van 2", "Van 3"]

/-- The last event of a van in the sorted vans frame
(`tmp[tmp["van"] == v]` then `.iloc[-1]`). -/
def lastVanEvent (rows : List VanRow) (v : String) : Option VanRow :=
  ((sortByTs VanRow.timestamp rows).filter (fun r => r.van == v)).getLast?

/-- `compute_van_status` (both revisions), read per van: the map starts
everything at `"IN"`; a van with rows gets
`str(last["status"]).strip().upper()` if that is `"IN"` or `"OUT"`,
else `"IN"`. -/
def compute_van_status (rows : List VanRow) (v : String) : String :=
  match lastVanEvent rows v with
  | none => "IN"
  | some last =>
    let s := pyUpper (pyStrip last.status)
    if s == "IN" || s == "OUT" then s else "IN"

example :
    derivedOutPerfect
      [⟨some 1, some 0, "A", "", "", "OUT", "out"⟩] "A" = true := by decide
example :
    derivedOutApp
      [⟨some 1, some 0, "A", "", "", "OUT", "out"⟩] "A" = false := by decide
example :
    compute_van_status
      [⟨"x", some 0, "Van 1", "D", "", "", "", "CHECKOUT", " out "⟩]
      "Van 1" = "OUT" := by decide
example :
    compute_van_status
      [⟨"x", some 0, "Van 1", "D", "", "", "", "CHECKOUT", "gone"⟩]
      "Van 1" = "IN" := by decide

/-- `next_available_van`'s loop body over a pool of van names:
`status_map.get(v, {}).get("status") != "OUT"` picks `v`. The status
map is modelled as a function to `Option String` (`none` when the van
or its `status` key is absent; Python's `None != "OUT"` is true). -/
def next_available_aux (statusOf : String → Option String) :
    List String → Option String
  | [] => none
  | v :: rest =>
    if statusOf v ≠ some "OUT" then some v else next_available_aux statusOf rest

/-- `next_available_van` (both revisions): first van of `VANS`, in
declared order, whose status is not `"OUT"`; `None` when all are out. -/
def next_available_van (statusOf : String → Option String) : Option String :=
  next_available_aux statusOf VANS

example : next_available_van (fun _ => some "IN") = some "Van 1" := by decide
example : next_available_van (fun _ => some "OUT") = none := by decide

/-- A raw row of the `staff` sheet (`name`, `pin`, `active`), before the
coercions of `load_staff_df_cached`. -/
structure StaffRec where
  name : String
  pin : String
  active : String
deriving DecidableEq, Repr

/-- `active.astype(str).str.strip().str.lower().isin(["true","yes","1"])`. -/
def staffActive (rec : StaffRec) : Bool :=
  let a := pyLower (pyStrip rec.active)
  a == "true" || a == "yes" || a == "1"

/-- `load_staff_df_cached` after the read: strip names, normalize pins,
keep only active rows and non-blank names. -/
def load_staff (roster : List StaffRec) : List StaffRec :=
  (roster.map (fun r => ⟨pyStrip r.name, normalize_pin r.pin, r.active⟩)).filter
    (fun r => staffActive r && r.name ≠ "")

/-- `pin_map = dict(zip(staff_df["name"], staff_df["pin"]))` looked up at
`name`: the last loaded row wins for a duplicated name. -/
def pinMap (roster : List StaffRec) (name : String) : Option String :=
  ((load_staff roster).reverse.find? (fun r => r.name == name)).map
    (fun r => r.pin)

/-- The outcomes `page_sign_in_out`'s submit branches distinguish before
reaching the state check: no name selected, name not in the pin map,
pin mismatch, or credentials accepted. -/
inductive AuthOutcome where
  | missingName
  | unknownActor
  | wrongCode
  | authorized
deriving DecidableEq, Repr

/-- The credential branches of `page_sign_in_out`
(`streamlit_app_SIGNOUT_PERFECT.py`): `if not name`, `elif name not in
pin_map`, `elif normalize_pin(pin_map[name]) != normalize_pin(pin)`,
else accepted. -/
def authorize (roster : List StaffRec) (name pin : String) : AuthOutcome :=
  if name = "" then .missingName
  else
    match pinMap roster name with
    | none => .unknownActor
    | some p =>
      if normalize_pin p ≠ normalize_pin pin then .wrongCode else .authorized

/-- `int(df["id"].max()) + 1` with the `df.empty or df["id"].isna().all()`
guard of `append_log_row`: the maximum of the parseable ids plus one,
or 1 when there is no parseable id. -/
def next_id (ids : List (Option Int)) : Int :=
  if ids.isEmpty ∨ ids.all Option.isNone then 1
  else
    match ids.filterMap id with
    | [] => 1
    | x :: xs => xs.foldl max x + 1

example : next_id [] = 1 := by decide
example : next_id [none, none] = 1 := by decide
example : next_id [some 3, none, some 7] = 8 := by decide

/-- The outcomes of the people sign-out submit handler
(`page_sign_in_out`, `streamlit_app_SIGNOUT_PERFECT.py` lines 338-352). -/
inductive SignOutResult where
  | missingName
  | unknownName
  | wrongCode
  | missingOtherReason
  | alreadyOut
  | accepted
deriving DecidableEq, Repr

/-- The people sign-out submit handler: the credential branches, then
`reason == "Other (type reason)" and not other_reason.strip()`, then the
already-out check against `df_out`, and on success
`append_log_row(name, reason, other_reason, "OUT", "OUT")` with the next
sequence id.  Returns the ledger after the submit and the outcome. -/
def sign_out_submit (roster : List StaffRec) (rows : List LogRow)
    (name reason other_reason pin : String) (now : Option Nat) :
    List LogRow × SignOutResult :=
  match authorize roster name pin with
  | .missingName => (rows, .missingName)
  | .unknownActor => (rows, .unknownName)
  | .wrongCode => (rows, .wrongCode)
  | .authorized =>
    if reason = "Other (type reason)" ∧ pyStrip other_reason = "" then
      (rows, .missingOtherReason)
    else if derivedOutPerfect rows name then (rows, .alreadyOut)
    else
      (rows ++ [⟨some (next_id (rows.map LogRow.id)), now, name, reason,
        other_reason, "OUT", "OUT"⟩], .accepted)

/-- The outcomes of the van sign-out submit handler (`page_vans`,
`streamlit_app_SIGNOUT_PERFECT.py` lines 457-466). -/
inductive VanSignOutResult where
  | missingDriver
  | wrongCode
  | missingOtherPurpose
  | accepted
deriving DecidableEq, Repr

/-- The van sign-out submit handler: `if not driver`, the pin comparison
against `pin_map.get(driver, "")`, the other-purpose check, and on
success the `append_vans_row` of a CHECKOUT row for the available van
(its id is the uuid fragment, taken here as a parameter). -/
def van_sign_out_submit (roster : List StaffRec) (vrows : List VanRow)
    (driver code purpose other_purpose passengers available newId : String)
    (now : Option Nat) : List VanRow × VanSignOutResult :=
  if driver = "" then (vrows, .missingDriver)
  else if normalize_pin code ≠ normalize_pin ((pinMap roster driver).getD "") then
    (vrows, .wrongCode)
  else if purpose = "Other" ∧ pyStrip other_purpose = "" then
    (vrows, .missingOtherPurpose)
  else
    (vrows ++ [⟨newId, now, available, driver, purpose,
      pyStrip other_purpose, passengers, "CHECKOUT", "OUT"⟩], .accepted)

/-- `ensure_header` (and `ensure_vans_header`): read the header row; when
it is empty insert the required headers; otherwise append the required
headers that are missing to its end.  The boolean records whether the
sheet's header was rewritten. -/
def ensure_header (headers required : List String) : List String × Bool :=
  if headers.isEmpty then (required, true)
  else
    let missing := required.filter (fun h => !(headers.contains h))
    if missing.isEmpty then (headers, false) else (headers ++ missing, true)

/-- `delete_logs_by_ids`: rewrite the sheet keeping
`df[~df["id"].isin(ids_to_delete)]`; a row whose id failed coercion
(`NA`) is never in `isin`'s hits, so it is kept. -/
def delete_logs_by_ids (rows : List LogRow) (ids : List Int) : List LogRow :=
  rows.filter (fun r =>
    match r.id with
    | none => true
    | some i => !(ids.contains i))

/-! ## Lemmas about the stable timestamp sort -/

theorem tsLe_refl (o : Option Nat) : tsLe o o = true := by
  cases o <;> simp [tsLe]

theorem tsLe_none_right (o : Option Nat) : tsLe o none = true := by
  cases o <;> rfl

/-- A row with an unparsable timestamp is inserted at the very end of
any accumulator. -/
theorem insertByTs_none {α : Type} (ts : α → Option Nat) (r : α)
    (hr : ts r = none) (l : List α) : insertByTs ts r l = l ++ [r] := by
  induction l with
  | nil => rfl
  | cons x xs ih =>
    have hx : tsLe (ts x) (ts r) = true := by rw [hr]; exact tsLe_none_right _
    simp [insertByTs, hx, ih]

/-- Inserting a parsed-timestamp row into `A ++ N`, with `N` made of
unparsable-timestamp rows, never enters `N`. -/
theorem insertByTs_some_append {α : Type} (ts : α → Option Nat) (r : α)
    (t : Nat) (hr : ts r = some t) (A N : List α)
    (hN : ∀ x ∈ N, ts x = none) :
    insertByTs ts r (A ++ N) = insertByTs ts r A ++ N := by
  induction A with
  | nil =>
    cases N with
    | nil => rfl
    | cons x xs =>
      have hx : tsLe (ts x) (ts r) = false := by
        rw [hN x (by simp), hr]; rfl
      simp [insertByTs, hx]
  | cons a A ih =>
    by_cases h : tsLe (ts a) (ts r) = true
    · simp [insertByTs, h, ih]
    · rw [Bool.not_eq_true] at h
      simp [insertByTs, h]

/-- The fold of the stable sort keeps the unparsable-timestamp rows in a
suffix, in the order they arrive. -/
theorem foldl_insertByTs_split {α : Type} (ts : α → Option Nat)
    (rows : List α) : ∀ A N : List α, (∀ x ∈ N, ts x = none) →
    rows.foldl (fun acc r => insertByTs ts r acc) (A ++ N) =
      (rows.filter (fun r => (ts r).isSome)).foldl
        (fun acc r => insertByTs ts r acc) A ++
      (N ++ rows.filter (fun r => (ts r).isNone)) := by
  induction rows with
  | nil => intro A N _; simp
  | cons r rest ih =>
    intro A N hN
    cases hr : ts r with
    | none =>
      rw [List.foldl_cons, insertByTs_none ts r hr, List.append_assoc]
      have h1 := ih A (N ++ [r]) (by
        intro x hx
        rcases List.mem_append.mp hx with h | h
        · exact hN x h
        · simp at h; subst h; exact hr)
      rw [h1]
      simp [List.filter_cons, hr, List.append_assoc]
    | some t =>
      rw [List.foldl_cons, insertByTs_some_append ts r t hr A N hN]
      have h1 := ih (insertByTs ts r A) N hN
      rw [h1]
      simp [List.filter_cons, hr]

/-- `sort_values("timestamp")` splits into the sorted parsed-timestamp
rows followed by the unparsable ones in original order. -/
theorem sortByTs_split {α : Type} (ts : α → Option Nat) (rows : List α) :
    sortByTs ts rows =
      sortByTs ts (rows.filter (fun r => (ts r).isSome)) ++
      rows.filter (fun r => (ts r).isNone) := by
  have h := foldl_insertByTs_split ts rows [] [] (by intro x hx; simp at hx)
  simpa [sortByTs] using h

/-! ## Lemmas about `groupby(key).tail(1)` -/

theorem lastPerKey_subset {α : Type} (key : α → String) :
    ∀ l : List α, ∀ x ∈ lastPerKey key l, x ∈ l := by
  intro l
  induction l with
  | nil => intro x hx; simp [lastPerKey] at hx
  | cons r rest ih =>
    intro x hx
    by_cases hd : rest.any (fun y => key y == key r) = true
    · simp only [lastPerKey, hd, if_pos] at hx
      exact List.mem_cons_of_mem r (ih x hx)
    · rw [Bool.not_eq_true] at hd
      simp only [lastPerKey, hd] at hx
      simp only [Bool.false_eq_true, if_false] at hx
      rcases List.mem_cons.mp hx with h | h
      · exact h ▸ List.mem_cons_self r rest
      · exact List.mem_cons_of_mem r (ih x h)

/-- Restricted to one key value, `groupby(key).tail(1)` is exactly the
last row of the frame carrying that value. -/
theorem lastPerKey_filter {α : Type} (key : α → String) (n : String) :
    ∀ l : List α, (lastPerKey key l).filter (fun r => key r == n) =
      ((l.filter (fun r => key r == n)).getLast?).toList := by
  intro l
  induction l with
  | nil => rfl
  | cons r rest ih =>
    by_cases hd : rest.any (fun y => key y == key r) = true
    · simp only [lastPerKey, hd, if_pos]
      rw [ih, List.filter_cons]
      by_cases hn : (key r == n) = true
      · have hkey : key r = n := by simpa using hn
        simp only [hn, if_pos]
        obtain ⟨y, hy, hky⟩ := List.any_eq_true.mp hd
        have hyn : (key y == n) = true := by
          have : key y = key r := by simpa using hky
          simp [this, hkey]
        have : rest.filter (fun r => key r == n) ≠ [] := by
          intro hnil
          have := List.filter_eq_nil_iff.mp hnil y hy
          exact this hyn
        obtain ⟨c, l', hcl⟩ := List.exists_cons_of_ne_nil this
        rw [hcl, List.getLast?_cons_cons]
      · simp [hn]
    · rw [Bool.not_eq_true] at hd
      have hnone : ∀ y ∈ rest, key y ≠ key r := by
        intro y hy heq
        have : rest.any (fun y => key y == key r) = true :=
          List.any_eq_true.mpr ⟨y, hy, by simp [heq]⟩
        rw [hd] at this; exact Bool.false_ne_true this
      simp only [lastPerKey, hd, Bool.false_eq_true, if_false]
      rw [List.filter_cons, List.filter_cons]
      by_cases hn : (key r == n) = true
      · have hkey : key r = n := by simpa using hn
        have hrest : rest.filter (fun r => key r == n) = [] := by
          apply List.filter_eq_nil_iff.mpr
          intro y hy hyn
          exact hnone y hy (by simpa [hkey] using hyn)
        have hlast : (lastPerKey key rest).filter (fun r => key r == n) = [] := by
          apply List.filter_eq_nil_iff.mpr
          intro y hy hyn
          exact hnone y (lastPerKey_subset key rest y hy)
            (by simpa [hkey] using hyn)
        simp [hn, hlast, hrest]
      · simp only [hn, Bool.false_eq_true, if_false]
        exact ih

/-- Derived person status in `streamlit_app_SIGNOUT_PERFECT.py`: OUT
exactly when the subject's last event's status upper-cases to `"OUT"`. -/
theorem derivedOutPerfect_iff (rows : List LogRow) (n : String) :
    derivedOutPerfect rows n = true ↔
      ∃ r, lastEvent rows n = some r ∧ pyUpper r.status = "OUT" := by
  unfold derivedOutPerfect get_currently_out_perfect lastEvent
  rw [List.any_eq_true]
  constructor
  · rintro ⟨r, hr, hn⟩
    rw [List.mem_filter] at hr
    obtain ⟨hmem, hst⟩ := hr
    have hname : r.name = n := by simpa using hn
    have hrf : r ∈ (lastPerKey LogRow.name
        (sortByTs LogRow.timestamp rows)).filter (fun r => r.name == n) :=
      List.mem_filter.mpr ⟨hmem, by simp [hname]⟩
    rw [lastPerKey_filter] at hrf
    refine ⟨r, ?_, by simpa using hst⟩
    cases hg : ((sortByTs LogRow.timestamp rows).filter
        (fun r => r.name == n)).getLast? with
    | none => rw [hg] at hrf; simp at hrf
    | some x => rw [hg] at hrf; simp at hrf; rw [hrf]
  · rintro ⟨r, hr, hst⟩
    have hrf : r ∈ (lastPerKey LogRow.name
        (sortByTs LogRow.timestamp rows)).filter (fun r => r.name == n) := by
      rw [lastPerKey_filter, hr]; simp
    rw [List.mem_filter] at hrf
    exact ⟨r, List.mem_filter.mpr ⟨hrf.1, by simp [hst]⟩, hrf.2⟩

/-- Derived person status in `streamlit_app.py`: OUT exactly when the
subject's last event's status is the exact string `"OUT"`. -/
theorem derivedOutApp_iff (rows : List LogRow) (n : String) :
    derivedOutApp rows n = true ↔
      ∃ r, lastEvent rows n = some r ∧ r.status = "OUT" := by
  unfold derivedOutApp get_currently_out_app lastEvent
  rw [List.any_eq_true]
  constructor
  · rintro ⟨r, hr, hn⟩
    rw [List.mem_filter] at hr
    obtain ⟨hmem, hst⟩ := hr
    have hname : r.name = n := by simpa using hn
    have hrf : r ∈ (lastPerKey LogRow.name
        (sortByTs LogRow.timestamp rows)).filter (fun r => r.name == n) :=
      List.mem_filter.mpr ⟨hmem, by simp [hname]⟩
    rw [lastPerKey_filter] at hrf
    refine ⟨r, ?_, by simpa using hst⟩
    cases hg : ((sortByTs LogRow.timestamp rows).filter
        (fun r => r.name == n)).getLast? with
    | none => rw [hg] at hrf; simp at hrf
    | some x => rw [hg] at hrf; simp at hrf; rw [hrf]
  · rintro ⟨r, hr, hst⟩
    have hrf : r ∈ (lastPerKey LogRow.name
        (sortByTs LogRow.timestamp rows)).filter (fun r => r.name == n) := by
      rw [lastPerKey_filter, hr]; simp
    rw [List.mem_filter] at hrf
    exact ⟨r, List.mem_filter.mpr ⟨hrf.1, by simp [hst]⟩, hrf.2⟩

/-- Derived van status: OUT exactly when the van's last event's status
strips and upper-cases to `"OUT"`. -/
theorem compute_van_status_out_iff (rows : List VanRow) (v : String) :
    compute_van_status rows v = "OUT" ↔
      ∃ r, lastVanEvent rows v = some r ∧ pyUpper (pyStrip r.status) = "OUT" := by
  unfold compute_van_status
  cases h : lastVanEvent rows v with
  | none => simp
  | some r =>
    simp only [Option.some.injEq]
    constructor
    · intro hout
      by_cases hs : (pyUpper (pyStrip r.status) == "IN") = true
      · have : pyUpper (pyStrip r.status) = "IN" := by simpa using hs
        simp [hs, this] at hout
      · by_cases ho : (pyUpper (pyStrip r.status) == "OUT") = true
        · exact ⟨r, rfl, by simpa using ho⟩
        · rw [Bool.not_eq_true] at hs ho
          simp [hs, ho] at hout
    · rintro ⟨r', hr', hst⟩
      have hrr : r = r' := by simpa using hr'
      subst hrr
      simp [hst]

/-- The van status map is always binary (fail-open default `"IN"`). -/
theorem compute_van_status_in_or_out (rows : List VanRow) (v : String) :
    compute_van_status rows v = "IN" ∨ compute_van_status rows v = "OUT" := by
  unfold compute_van_status
  cases lastVanEvent rows v with
  | none => left; rfl
  | some r =>
    by_cases hs : (pyUpper (pyStrip r.status) == "IN") = true
    · have ha : pyUpper (pyStrip r.status) = "IN" := by simpa using hs
      left; simp [ha]
    · by_cases ho : (pyUpper (pyStrip r.status) == "OUT") = true
      · right
        have h := (by simpa using ho : pyUpper (pyStrip r.status) = "OUT")
        simp [ho, h]
      · rw [Bool.not_eq_true] at hs ho
        left; simp [hs, ho]

/-! ## Claim theorems -/

/-- C8: rows whose timestamp fails to parse are ordered after all rows
with parseable timestamps when deriving `last_event`, and among
themselves keep their original ledger order (the sort is stable on
them): the sorted frame is the sorted parseable rows followed by the
unparsable rows in ledger order, globally and restricted to any one
subject. -/
theorem unparsable_timestamps_sort_last :
    ∀ (rows : List LogRow) (n : String),
      sortByTs LogRow.timestamp rows =
        sortByTs LogRow.timestamp (rows.filter (fun r => r.timestamp.isSome)) ++
          rows.filter (fun r => r.timestamp.isNone) ∧
      (sortByTs LogRow.timestamp rows).filter (fun r => r.name == n) =
        (sortByTs LogRow.timestamp
            (rows.filter (fun r => r.timestamp.isSome))).filter
            (fun r => r.name == n) ++
          (rows.filter (fun r => r.timestamp.isNone)).filter
            (fun r => r.name == n) := by
  intro rows n
  refine ⟨sortByTs_split _ rows, ?_⟩
  rw [sortByTs_split LogRow.timestamp rows, List.filter_append]

/-- C1 fails as stated: in `streamlit_app.py`'s `get_currently_out` the
status comparison is case-sensitive, so a last event whose status is
the lowercase `"out"` (which case-insensitively equals `"OUT"`) derives
IN; and in `compute_van_status` the whitespace-padded `" OUT "` (which
does not case-insensitively equal `"OUT"`) derives OUT. -/
theorem derived_status_counterexample :
    pyUpper "out" = "OUT" ∧
    derivedOutApp [⟨some 1, some 0, "A", "", "", "OUT", "out"⟩] "A" = false ∧
    compute_van_status
      [⟨"x", some 0, "Van 1", "D", "", "", "", "CHECKOUT", " OUT "⟩]
      "Van 1" = "OUT" := by
  decide

/-- C1 (amended): the status comparison differs per engine. In
`streamlit_app_SIGNOUT_PERFECT.py` a person's derived status is OUT iff
their last event's status upper-cases to `"OUT"` (case-insensitive,
whitespace significant); in `streamlit_app.py` iff it equals `"OUT"`
exactly (case-sensitive); a van is OUT iff its last event's status
strips and upper-cases to `"OUT"`.  Every other value — absent,
malformed, unrecognized — derives IN, and the van status is always
binary. -/
theorem derived_status_amended :
    ∀ (rows : List LogRow) (n : String) (vrows : List VanRow) (v : String),
      (derivedOutPerfect rows n = true ↔
        ∃ r, lastEvent rows n = some r ∧ pyUpper r.status = "OUT") ∧
      (derivedOutApp rows n = true ↔
        ∃ r, lastEvent rows n = some r ∧ r.status = "OUT") ∧
      (compute_van_status vrows v = "OUT" ↔
        ∃ r, lastVanEvent vrows v = some r ∧
          pyUpper (pyStrip r.status) = "OUT") ∧
      (compute_van_status vrows v = "IN" ∨ compute_van_status vrows v = "OUT") :=
  fun rows n vrows v =>
    ⟨derivedOutPerfect_iff rows n, derivedOutApp_iff rows n,
      compute_van_status_out_iff vrows v, compute_van_status_in_or_out vrows v⟩

/-- C2 fails as stated: two events of subject `"A"` share timestamp 10;
the event with the higher `sequence_id` (5, status OUT) sits first in
the ledger and the lower one (3, status IN) last.  `last_event` selects
the ledger-later, lower-id row, so the derived status is IN, where the
claim requires the id-5 row (OUT) to win. -/
theorem tie_break_counterexample :
    lastEvent [⟨some 5, some 10, "A", "", "", "OUT", "OUT"⟩,
               ⟨some 3, some 10, "A", "", "", "IN", "IN"⟩] "A" =
      some ⟨some 3, some 10, "A", "", "", "IN", "IN"⟩ ∧
    derivedOutPerfect [⟨some 5, some 10, "A", "", "", "OUT", "OUT"⟩,
               ⟨some 3, some 10, "A", "", "", "IN", "IN"⟩] "A" = false ∧
    derivedOutApp [⟨some 5, some 10, "A", "", "", "OUT", "OUT"⟩,
               ⟨some 3, some 10, "A", "", "", "IN", "IN"⟩] "A" = false := by
  decide

/-- C2 (amended): `sequence_id` is not a sort key; for a two-event
ledger of one subject with identical timestamps, the event appearing
later in the ledger is selected as `last_event` and determines the
derived status, whatever the two sequence ids are. -/
theorem tie_break_amended (a b : LogRow) (hname : a.name = b.name)
    (hts : a.timestamp = b.timestamp) :
    lastEvent [a, b] a.name = some b ∧
    (derivedOutPerfect [a, b] a.name = true ↔ pyUpper b.status = "OUT") := by
  have hsort : sortByTs LogRow.timestamp [a, b] = [a, b] := by
    simp [sortByTs, insertByTs, hts, tsLe_refl]
  have hlast : lastEvent [a, b] a.name = some b := by
    unfold lastEvent
    rw [hsort]
    have hf : ([a, b]).filter (fun r => r.name == a.name) = [a, b] := by
      simp [List.filter_cons, hname]
    rw [hf]
    rfl
  refine ⟨hlast, ?_⟩
  rw [derivedOutPerfect_iff]
  constructor
  · rintro ⟨r, hr, hst⟩
    rw [hlast] at hr
    have : r = b := by simpa using hr.symm
    rw [← this]
    exact hst
  · intro h
    exact ⟨b, hlast, h⟩

/-- Witness for the amended C2 at a concrete input. -/
theorem tie_break_amended_witness :
    lastEvent [(⟨some 1, some 5, "B", "", "", "OUT", "out"⟩ : LogRow),
               ⟨some 2, some 5, "B", "", "", "OUT", "OUT"⟩] "B" =
      some ⟨some 2, some 5, "B", "", "", "OUT", "OUT"⟩ ∧
    (derivedOutPerfect [⟨some 1, some 5, "B", "", "", "OUT", "out"⟩,
        ⟨some 2, some 5, "B", "", "", "OUT", "OUT"⟩] "B" = true ↔
      pyUpper "OUT" = "OUT") :=
  tie_break_amended
    ⟨some 1, some 5, "B", "", "", "OUT", "out"⟩
    ⟨some 2, some 5, "B", "", "", "OUT", "OUT"⟩ rfl rfl

/-- `str.zfill(4)` never returns fewer than 4 characters. -/
theorem zfill4_length (s : String) : 4 ≤ (zfill4 s).data.length := by
  unfold zfill4
  by_cases h4 : 4 ≤ s.data.length
  · rw [if_pos h4]
    exact h4
  · rw [if_neg h4]
    cases h : s.data with
    | nil => simp
    | cons c rest =>
      rw [h] at h4
      simp only [List.length_cons] at h4
      dsimp only
      by_cases hc : c = '-' ∨ c = '+'
      · rw [if_pos hc]
        simp only [String.length, List.length_cons, List.length_append,
          List.length_replicate]
        omega
      · rw [if_neg hc]
        simp only [String.length, List.length_append, List.length_replicate,
          List.length_cons]
        omega

/-- C3 fails as stated: `normalize_pin` does not truncate to 4
characters and does not keep digit characters only — a 5-digit input
passes through whole, and a non-digit character survives the padding. -/
theorem normalize_pin_counterexample :
    normalize_pin "12345" = "12345" ∧
    (normalize_pin "12345").data.length = 5 ∧
    normalize_pin "12a" = "012a" ∧
    ('a' ∈ (normalize_pin "12a").data ∧ 'a'.isDigit = false) := by
  decide

/-- C3 (amended): `normalize_pin` removes leading/trailing whitespace
and interior space characters, strips one trailing `".0"`, and
left-pads with `"0"` to length AT LEAST four — longer cleaned inputs
are returned whole and non-digit characters are preserved; the three
quoted examples hold. -/
theorem normalize_pin_amended :
    (∀ s, 4 ≤ (normalize_pin s).data.length) ∧
    normalize_pin "42" = "0042" ∧
    normalize_pin "1234.0" = "1234" ∧
    normalize_pin " 77 " = "0077" :=
  ⟨fun s => zfill4_length _, by decide, by decide, by decide⟩

/-! ## Credential gate characterization -/

/-- A roster row that is filtered out at load (inactive) never reaches
the pin map: an inactive actor is indistinguishable from an absent one. -/
theorem pinMap_inactive_single (rec : StaffRec)
    (hrec : staffActive rec = false) (n : String) : pinMap [rec] n = none := by
  unfold pinMap load_staff
  have hact : staffActive ⟨pyStrip rec.name, normalize_pin rec.pin, rec.active⟩
      = false := hrec
  simp [List.filter_cons, hact]

theorem authorize_missingName_iff (roster : List StaffRec) (name pin : String) :
    authorize roster name pin = .missingName ↔ name = "" := by
  unfold authorize
  by_cases h : name = ""
  · simp [h]
  · cases hp : pinMap roster name with
    | none => simp [h, hp]
    | some p =>
      by_cases hq : normalize_pin p = normalize_pin pin <;> simp [h, hp, hq]

theorem authorize_unknown_iff (roster : List StaffRec) (name pin : String) :
    authorize roster name pin = .unknownActor ↔
      name ≠ "" ∧ pinMap roster name = none := by
  unfold authorize
  by_cases h : name = ""
  · simp [h]
  · cases hp : pinMap roster name with
    | none => simp [h, hp]
    | some p =>
      by_cases hq : normalize_pin p = normalize_pin pin <;> simp [h, hp, hq]

theorem authorize_wrongCode_iff (roster : List StaffRec) (name pin : String) :
    authorize roster name pin = .wrongCode ↔
      name ≠ "" ∧ ∃ p, pinMap roster name = some p ∧
        normalize_pin p ≠ normalize_pin pin := by
  unfold authorize
  by_cases h : name = ""
  · simp [h]
  · cases hp : pinMap roster name with
    | none => simp [h, hp]
    | some p =>
      by_cases hq : normalize_pin p = normalize_pin pin <;> simp [h, hp, hq]

theorem authorize_authorized_iff (roster : List StaffRec) (name pin : String) :
    authorize roster name pin = .authorized ↔
      name ≠ "" ∧ ∃ p, pinMap roster name = some p ∧
        normalize_pin p = normalize_pin pin := by
  unfold authorize
  by_cases h : name = ""
  · simp [h]
  · cases hp : pinMap roster name with
    | none => simp [h, hp]
    | some p =>
      by_cases hq : normalize_pin p = normalize_pin pin <;> simp [h, hp, hq]

/-- C4 fails as stated: there is no `InactiveActor` outcome.
`load_staff_df_cached` filters inactive rows out of the roster before
the pin map is built, so an actor present in the roster but inactive
gets the same `UnknownActor` outcome (the "Name not recognized" branch)
as an actor absent from the roster altogether. -/
theorem authorize_counterexample :
    authorize [⟨"Alice", "1234", "false"⟩] "Alice" "1234" =
      AuthOutcome.unknownActor ∧
    authorize [] "Alice" "1234" = AuthOutcome.unknownActor := by
  decide

/-- C4 (amended): the check distinguishes a missing-name validation
failure, `UnknownActor` (actor absent from the loaded roster — which
includes every present-but-inactive actor, because inactive rows are
filtered at load), `WrongCode`, and `Authorized`; an inactive roster
record never reaches the pin map. -/
theorem authorize_amended :
    ∀ (roster : List StaffRec) (name pin : String),
      (authorize roster name pin = .missingName ↔ name = "") ∧
      (authorize roster name pin = .unknownActor ↔
        name ≠ "" ∧ pinMap roster name = none) ∧
      (authorize roster name pin = .wrongCode ↔
        name ≠ "" ∧ ∃ p, pinMap roster name = some p ∧
          normalize_pin p ≠ normalize_pin pin) ∧
      (authorize roster name pin = .authorized ↔
        name ≠ "" ∧ ∃ p, pinMap roster name = some p ∧
          normalize_pin p = normalize_pin pin) ∧
      (∀ rec : StaffRec, staffActive rec = false → pinMap [rec] name = none) :=
  fun roster name pin =>
    ⟨authorize_missingName_iff roster name pin,
      authorize_unknown_iff roster name pin,
      authorize_wrongCode_iff roster name pin,
      authorize_authorized_iff roster name pin,
      fun rec hrec => pinMap_inactive_single rec hrec name⟩

/-! ## Allocation policy -/

theorem next_available_aux_none_iff (m : String → Option String) :
    ∀ pool : List String,
      next_available_aux m pool = none ↔ ∀ v ∈ pool, m v = some "OUT" := by
  intro pool
  induction pool with
  | nil => simp [next_available_aux]
  | cons v rest ih =>
    by_cases h : m v = some "OUT"
    · simp [next_available_aux, h, ih]
    · simp [next_available_aux, h]

theorem next_available_aux_first (m : String → Option String) (v : String) :
    ∀ pre suf : List String, (∀ u ∈ pre, m u = some "OUT") →
      m v ≠ some "OUT" →
      next_available_aux m (pre ++ v :: suf) = some v := by
  intro pre
  induction pre with
  | nil =>
    intro suf _ hv
    simp [next_available_aux, hv]
  | cons u pre ih =>
    intro suf hpre hv
    have hu : m u = some "OUT" := hpre u (by simp)
    simp only [List.cons_append, next_available_aux, hu, ne_eq,
      not_true_eq_false, if_false]
    exact ih suf (fun x hx => hpre x (by simp [hx])) hv

/-- C5: `next_available_van` returns the first pool member, in the
fixed declared order of `VANS`, whose status is not `"OUT"`, and
returns none exactly when every pool member is `"OUT"`; on the
three-van pool: all in → first van, first van out → second van, all
out → none. -/
theorem next_available_van_first_free :
    (∀ m : String → Option String,
      (next_available_van m = none ↔ ∀ v ∈ VANS, m v = some "OUT") ∧
      (∀ pre v suf, VANS = pre ++ v :: suf →
        (∀ u ∈ pre, m u = some "OUT") → m v ≠ some "OUT" →
        next_available_van m = some v)) ∧
    next_available_van (fun _ => some "IN") = some "Van 1" ∧
    next_available_van
      (fun v => if v == "Van 1" then some "OUT" else some "IN") =
      some "Van 2" ∧
    next_available_van (fun _ => some "OUT") = none := by
  refine ⟨fun m => ⟨next_available_aux_none_iff m VANS, ?_⟩,
    by decide, by decide, by decide⟩
  intro pre v suf hsplit hpre hv
  unfold next_available_van
  rw [hsplit]
  exact next_available_aux_first m v pre suf hpre hv

/-! ## Mutation coordinator: rejection and append behaviour -/

/-- Full case behaviour of the people sign-out submit handler: every
rejection leaves the ledger unchanged and carries the reason of the
branch that fired; acceptance appends exactly the new OUT event. -/
theorem sign_out_submit_spec (roster : List StaffRec) (rows : List LogRow)
    (name reason other_reason pin : String) (now : Option Nat) :
    ((sign_out_submit roster rows name reason other_reason pin now).2 ≠
        SignOutResult.accepted →
      (sign_out_submit roster rows name reason other_reason pin now).1 = rows) ∧
    ((sign_out_submit roster rows name reason other_reason pin now).2 =
        SignOutResult.accepted →
      (sign_out_submit roster rows name reason other_reason pin now).1 =
        rows ++ [⟨some (next_id (rows.map LogRow.id)), now, name, reason,
          other_reason, "OUT", "OUT"⟩]) ∧
    ((sign_out_submit roster rows name reason other_reason pin now).2 =
        SignOutResult.missingName ↔ name = "") ∧
    ((sign_out_submit roster rows name reason other_reason pin now).2 =
        SignOutResult.unknownName ↔
      name ≠ "" ∧ pinMap roster name = none) ∧
    ((sign_out_submit roster rows name reason other_reason pin now).2 =
        SignOutResult.wrongCode ↔
      authorize roster name pin = AuthOutcome.wrongCode) ∧
    ((sign_out_submit roster rows name reason other_reason pin now).2 =
        SignOutResult.missingOtherReason ↔
      (authorize roster name pin = AuthOutcome.authorized ∧
        reason = "Other (type reason)" ∧ pyStrip other_reason = "")) ∧
    ((sign_out_submit roster rows name reason other_reason pin now).2 =
        SignOutResult.alreadyOut ↔
      (authorize roster name pin = AuthOutcome.authorized ∧
        ¬(reason = "Other (type reason)" ∧ pyStrip other_reason = "") ∧
        derivedOutPerfect rows name = true)) := by
  unfold sign_out_submit
  cases hauth : authorize roster name pin with
  | missingName =>
    have hname : name = "" := (authorize_missingName_iff roster name pin).mp hauth
    refine ⟨?_, ?_, ?_, ?_, ?_, ?_, ?_⟩ <;> simp [hname]
  | unknownActor =>
    obtain ⟨hname, hpm⟩ := (authorize_unknown_iff roster name pin).mp hauth
    refine ⟨?_, ?_, ?_, ?_, ?_, ?_, ?_⟩ <;> simp [hname, hpm]
  | wrongCode =>
    obtain ⟨hname, p, hp, hq⟩ := (authorize_wrongCode_iff roster name pin).mp hauth
    refine ⟨?_, ?_, ?_, ?_, ?_, ?_, ?_⟩ <;> simp [hname, hp]
  | authorized =>
    obtain ⟨hname, p, hp, hq⟩ :=
      (authorize_authorized_iff roster name pin).mp hauth
    by_cases hor : reason = "Other (type reason)" ∧ pyStrip other_reason = ""
    · refine ⟨?_, ?_, ?_, ?_, ?_, ?_, ?_⟩ <;> simp [hname, hp, hor]
    · by_cases hd : derivedOutPerfect rows name = true
      · refine ⟨?_, ?_, ?_, ?_, ?_, ?_, ?_⟩ <;> simp [hname, hp, hor, hd]
      · refine ⟨?_, ?_, ?_, ?_, ?_, ?_, ?_⟩ <;> simp [hname, hp, hor, hd]

/-- The van sign-out submit handler never touches the vans ledger on a
rejection. -/
theorem van_sign_out_submit_frame (roster : List StaffRec)
    (vrows : List VanRow)
    (driver code purpose other_purpose passengers available newId : String)
    (now : Option Nat) :
    ((van_sign_out_submit roster vrows driver code purpose other_purpose
        passengers available newId now).2 ≠ VanSignOutResult.accepted →
      (van_sign_out_submit roster vrows driver code purpose other_purpose
        passengers available newId now).1 = vrows) := by
  unfold van_sign_out_submit
  by_cases h1 : driver = ""
  · simp [h1]
  · by_cases h2 : normalize_pin code ≠
        normalize_pin ((pinMap roster driver).getD "")
    · simp [h1, h2]
    · by_cases h3 : purpose = "Other" ∧ pyStrip other_purpose = ""
      · simp [h1, h2, h3]
      · simp [h1, h2, h3]

/-- C6: when a submitted intent is rejected (missing required field,
failed credential check, or the subject already being out), no event is
appended — the ledger handed back is the ledger handed in — and the
outcome is the specific rejection reason of the branch that fired, for
both the people sign-out handler and the van sign-out handler;
acceptance appends exactly one event. -/
theorem rejection_no_append :
    ∀ (roster : List StaffRec) (rows : List LogRow)
      (name reason other_reason pin : String) (now : Option Nat)
      (vrows : List VanRow)
      (driver code purpose other_purpose passengers available newId : String),
      (((sign_out_submit roster rows name reason other_reason pin now).2 ≠
          SignOutResult.accepted →
        (sign_out_submit roster rows name reason other_reason pin now).1 =
          rows) ∧
      ((sign_out_submit roster rows name reason other_reason pin now).2 =
          SignOutResult.accepted →
        (sign_out_submit roster rows name reason other_reason pin now).1 =
          rows ++ [⟨some (next_id (rows.map LogRow.id)), now, name, reason,
            other_reason, "OUT", "OUT"⟩]) ∧
      ((sign_out_submit roster rows name reason other_reason pin now).2 =
          SignOutResult.missingName ↔ name = "") ∧
      ((sign_out_submit roster rows name reason other_reason pin now).2 =
          SignOutResult.unknownName ↔
        name ≠ "" ∧ pinMap roster name = none) ∧
      ((sign_out_submit roster rows name reason other_reason pin now).2 =
          SignOutResult.wrongCode ↔
        authorize roster name pin = AuthOutcome.wrongCode) ∧
      ((sign_out_submit roster rows name reason other_reason pin now).2 =
          SignOutResult.missingOtherReason ↔
        (authorize roster name pin = AuthOutcome.authorized ∧
          reason = "Other (type reason)" ∧ pyStrip other_reason = "")) ∧
      ((sign_out_submit roster rows name reason other_reason pin now).2 =
          SignOutResult.alreadyOut ↔
        (authorize roster name pin = AuthOutcome.authorized ∧
          ¬(reason = "Other (type reason)" ∧ pyStrip other_reason = "") ∧
          derivedOutPerfect rows name = true))) ∧
      ((van_sign_out_submit roster vrows driver code purpose other_purpose
          passengers available newId now).2 ≠ VanSignOutResult.accepted →
        (van_sign_out_submit roster vrows driver code purpose other_purpose
          passengers available newId now).1 = vrows) :=
  fun roster rows name reason other_reason pin now vrows driver code purpose
      other_purpose passengers available newId =>
    ⟨sign_out_submit_spec roster rows name reason other_reason pin now,
      van_sign_out_submit_frame roster vrows driver code purpose other_purpose
        passengers available newId now⟩

/-! ## Sequence id generation -/

/-- The spec's `next_sequence_id()`, stated from its words — `1 +
max(parseable existing sequence_id, default 0)` — for comparison with
the code's `next_id`. -/
def next_sequence_id_spec (ids : List (Option Int)) : Int :=
  1 + (match ids.filterMap id with
       | [] => 0
       | x :: xs => xs.foldl max x)

theorem filterMap_id_nil (ids : List (Option Int)) :
    ids.filterMap id = [] ↔ ∀ x ∈ ids, x = none := by
  induction ids with
  | nil => simp
  | cons x xs ih =>
    cases x with
    | none => simp [ih]
    | some a => simp

/-- C7: the sequence id assigned to a newly appended event equals 1
plus the maximum of the successfully parsed existing sequence ids
(defaulting to 0), so an empty ledger or one whose ids are all
unparsable restarts numbering at 1. -/
theorem next_id_eq_spec :
    (∀ ids : List (Option Int), next_id ids = next_sequence_id_spec ids) ∧
    next_id [] = 1 ∧
    next_id [none, none] = 1 ∧
    next_id [some 3, none, some 7] = 8 := by
  refine ⟨?_, by decide, by decide, by decide⟩
  intro ids
  unfold next_id next_sequence_id_spec
  by_cases h : ids.isEmpty = true ∨ ids.all Option.isNone = true
  · rw [if_pos h]
    have hnil : ids.filterMap id = [] := by
      rw [filterMap_id_nil]
      rcases h with h | h
      · intro x hx
        rw [List.isEmpty_iff.mp h] at hx
        cases hx
      · intro x hx
        exact Option.isNone_iff_eq_none.mp (List.all_eq_true.mp h x hx)
    rw [hnil]
    simp
  · rw [if_neg h]
    have hne : ids.filterMap id ≠ [] := by
      intro hnil
      apply h
      right
      rw [List.all_eq_true]
      intro x hx
      exact Option.isNone_iff_eq_none.mpr ((filterMap_id_nil ids).mp hnil x hx)
    obtain ⟨x, xs, hxs⟩ := List.exists_cons_of_ne_nil hne
    rw [hxs]
    dsimp only
    omega

/-! ## Schema guard -/

/-- Running the guard on a non-empty header already holding every
required column writes nothing. -/
theorem ensure_header_complete_no_op (headers required : List String)
    (hne : headers ≠ []) (hall : ∀ h ∈ required, h ∈ headers) :
    ensure_header headers required = (headers, false) := by
  have hmiss : required.filter (fun h => !(headers.contains h)) = [] := by
    apply List.filter_eq_nil_iff.mpr
    intro a ha
    simp [hall a ha]
  unfold ensure_header
  rw [if_neg (by simpa using hne)]
  dsimp only
  rw [hmiss]
  rfl

/-- The guard's output header is the input header followed by exactly
the missing required columns, in required order. -/
theorem ensure_header_fst (headers required : List String) :
    (ensure_header headers required).1 =
      headers ++ required.filter (fun h => !(headers.contains h)) := by
  unfold ensure_header
  by_cases hh : headers.isEmpty = true
  · have h0 : headers = [] := List.isEmpty_iff.mp hh
    subst h0
    have ht : (List.isEmpty ([] : List String)) = true := rfl
    rw [if_pos ht, List.nil_append]
    have hfull : required.filter (fun h => !(List.contains [] h)) = required :=
      List.filter_eq_self.mpr (fun a _ => by simp)
    rw [hfull]
  · rw [if_neg hh]
    dsimp only
    by_cases hm : (required.filter (fun h => !(headers.contains h))).isEmpty = true
    · rw [if_pos hm, List.isEmpty_iff.mp hm, List.append_nil]
    · rw [if_neg hm]

/-- Every required column is present after the guard runs. -/
theorem ensure_header_mem (headers required : List String) :
    ∀ h ∈ required, h ∈ (ensure_header headers required).1 := by
  intro h hmem
  rw [ensure_header_fst]
  by_cases hc : h ∈ headers
  · exact List.mem_append.mpr (Or.inl hc)
  · refine List.mem_append.mpr (Or.inr (List.mem_filter.mpr ⟨hmem, ?_⟩))
    simp [hc]

/-- C9: the schema guard appends exactly the missing required fields to
the end of the header without reordering or removing existing columns
(the old header is a prefix of the new one), every required field is
present afterwards, a run on an already-complete header mutates
nothing, and a second run right after a first one mutates nothing
(idempotence). -/
theorem ensure_header_appends_missing :
    ∀ headers required : List String,
      ((ensure_header headers required).1 =
        headers ++ required.filter (fun h => !(headers.contains h))) ∧
      (∀ h ∈ required, h ∈ (ensure_header headers required).1) ∧
      (headers ≠ [] → (∀ h ∈ required, h ∈ headers) →
        ensure_header headers required = (headers, false)) ∧
      (required ≠ [] →
        ensure_header (ensure_header headers required).1 required =
          ((ensure_header headers required).1, false)) := by
  intro headers required
  refine ⟨ensure_header_fst _ _, ensure_header_mem _ _,
    fun hne hall => ensure_header_complete_no_op _ _ hne hall, ?_⟩
  intro hreq
  apply ensure_header_complete_no_op
  · rw [ensure_header_fst]
    cases headers with
    | nil =>
      simp only [List.nil_append]
      have hfull : required.filter (fun h => !(List.contains [] h)) = required :=
        List.filter_eq_self.mpr (fun a _ => by simp)
      rw [hfull]
      exact hreq
    | cons a t => simp
  · exact ensure_header_mem headers required

/-! ## Administrative delete -/

/-- C10: the delete-by-id operation keeps exactly the rows whose parsed
id is not in the given set; rows whose id failed integer coercion are
always preserved; the kept rows are a sublist of the original ledger
(order intact, nothing else touched). -/
theorem delete_logs_keeps_unparsable :
    ∀ (rows : List LogRow) (ids : List Int),
      (∀ r : LogRow, r ∈ delete_logs_by_ids rows ids ↔
        (r ∈ rows ∧ ∀ i, r.id = some i → i ∉ ids)) ∧
      (∀ r ∈ rows, r.id = none → r ∈ delete_logs_by_ids rows ids) ∧
      (delete_logs_by_ids rows ids).Sublist rows := by
  intro rows ids
  have hmem : ∀ r : LogRow, r ∈ delete_logs_by_ids rows ids ↔
      (r ∈ rows ∧ ∀ i, r.id = some i → i ∉ ids) := by
    intro r
    unfold delete_logs_by_ids
    rw [List.mem_filter]
    cases hr : r.id with
    | none => simp [hr]
    | some i => simp [hr]
  refine ⟨hmem, ?_, List.filter_sublist _⟩
  intro r hmemr hnone
  refine (hmem r).mpr ⟨hmemr, ?_⟩
  intro i hi
  rw [hnone] at hi
  cases hi
